import Mathlib

/-!
Verification of the RAG / agentic-AI core of this repository.

The shallow embedding below translates, definition by definition:
* `AgentLoop`: `MCPAgent` from
  `src/agentic-apps/agentic_rag_opensearch/src/agents/SupervisorAgent.ts`
  (`callTool`, `processToolCall`, `executeTask`).  The `ChatOpenAI` class that
  `MCPAgent` imports (`../ChatOpenAI`, with `updateSystemPrompt` and tool-call
  parsing) is not part of the available sources; its `chat` endpoint is
  modelled from the spec as a round-indexed oracle producing
  `{content, toolCalls}` responses.
* `MCPChat`: `src/mcp/src/ChatOpenAI.ts` (message history, `chat`,
  `appendToolResult`).
* `VS`: the in-memory `VectorStore` of `src/mcp/dist/EmbeddingRetriever.js`
  (`addEmbedding`, `search`, `cosineSimilarity`).  JavaScript's stable
  `Array.prototype.sort` with comparator `(a, b) => b.score - a.score` is
  modelled by Mathlib's stable `List.insertionSort` with the relation
  "the inserted element goes first iff its score is ≥".
* `ER`: the `EmbeddingRetriever` of `src/unnamed/part_004`
  (`generateRandomEmbedding`, `normalizeVector`, `resizeEmbedding`, `embed`).
JavaScript numbers are modelled by `ℝ` (exact arithmetic; `x / 0 = 0` is the
Lean convention where IEEE arithmetic would produce `NaN` or `±∞`).
-/

namespace AgentLoop

/-- A tool-call request as emitted by the model:
`{ id, function: { name, arguments } }`. -/
structure ToolCallFunction where
  name : String
  arguments : String
deriving DecidableEq

structure ToolCall where
  id : String
  function : ToolCallFunction
deriving DecidableEq

/-- A tool descriptor as cached by `MCPClient.connectToServer`. -/
structure MCPTool where
  name : String
  description : String
  inputSchema : String
deriving DecidableEq

/-- An `MCPClient` (src/mcp/dist/MCPClient.js): the cached tool list plus the
remote tool server behind `this.mcp.callTool`, modelled as a function that
either returns a serialized result or throws (`Except.error`).
`MCPClient.callTool` forwards to the server without interpretation. -/
structure MCPClient where
  tools : List MCPTool
  call : String → String → Except String String

/-- `MCPAgent.callTool`: iterate over the clients; the first client whose
cached tool list contains the name handles the call (its error, if any, is
rethrown by the `catch`); if no client has the tool, throw
`Tool <name> not found in any MCP client`. -/
def agentCallTool : List MCPClient → String → String → Except String String
  | [], name, _ =>
      .error ("Tool " ++ name ++ " not found in any MCP client")
  | c :: cs, name, args =>
      if (c.tools.find? (fun t => t.name == name)).isSome then
        c.call name args
      else
        agentCallTool cs name args

/-- The client-dispatch loop inside `MCPAgent.processToolCall`: same search as
`agentCallTool` but with the `No MCP client found for tool: <name>` error. -/
def processLoop : List MCPClient → String → String → Except String String
  | [], name, _ =>
      .error ("No MCP client found for tool: " ++ name)
  | c :: cs, name, args =>
      if (c.tools.find? (fun t => t.name == name)).isSome then
        c.call name args
      else
        processLoop cs name args

/-- `JSON.stringify({ error: message })` as built in `processToolCall`'s
`catch` branch. -/
def jsonErrorStr (message : String) : String :=
  "\x7b\"error\":\"" ++ message ++ "\"\x7d"

/-- A tool-result message as appended by `ChatOpenAI.appendToolResult`:
the tool-call id plus the serialized output. -/
structure ToolMsg where
  tool_call_id : String
  content : String
deriving DecidableEq

/-- The `try` block of `MCPAgent.processToolCall`: parse the arguments
(`JSON.parse` may throw, modelled by the oracle `jp`), dispatch to the first
capable client (the client call may throw; absence of a capable client
throws), and serialize the result. -/
def processToolCallTry (jp : String → Except String String)
    (clients : List MCPClient) (tc : ToolCall) : Except String ToolMsg := do
  let args ← jp tc.function.arguments
  let result ← processLoop clients tc.function.name args
  pure ⟨tc.id, result⟩

/-- `MCPAgent.processToolCall`: the whole body is wrapped in `try/catch`;
the `catch` appends `JSON.stringify({ error: message })` as the tool result
for `toolCall.id`, so the function always produces exactly one tool-result
message and never propagates an exception. -/
def processToolCall (jp : String → Except String String)
    (clients : List MCPClient) (tc : ToolCall) : ToolMsg :=
  match processToolCallTry jp clients tc with
  | .ok m => m
  | .error e => ⟨tc.id, jsonErrorStr e⟩

/-- Modelled from the spec: the response of the `ChatOpenAI` used by
`MCPAgent` (file `../ChatOpenAI` of the agentic-apps tree, absent from the
available sources): `chat` returns `{content, toolCalls}` where `toolCalls`
are the tool-call requests parsed from the model output. -/
structure ChatResponse where
  content : String
  toolCalls : List ToolCall
deriving DecidableEq

/-- The `while (response.toolCalls.length > 0)` loop of
`MCPAgent.executeTask`, fuel-indexed.  `oracle k` is the model's response to
the `k`-th chat round (the conversational endpoint is modelled from the spec
as an oracle).  Each round with tool calls appends one tool-result message
per call (via `processToolCall`) and resubmits; a round without tool calls
returns the model's content.  `none` means the fuel was exhausted with the
loop still running — the source loop has no iteration ceiling, so no fuel
bound is intrinsic to the code. -/
def executeTaskGo (jp : String → Except String String)
    (clients : List MCPClient) (oracle : ℕ → ChatResponse) :
    ℕ → ℕ → List ToolMsg → Option (String × List ToolMsg)
  | 0, _, _ => none
  | fuel + 1, k, msgs =>
      let r := oracle k
      if r.toolCalls.isEmpty then
        some (r.content, msgs)
      else
        executeTaskGo jp clients oracle fuel (k + 1)
          (msgs ++ r.toolCalls.map (processToolCall jp clients))

/-- The tool-result messages appended during the first `n` rounds. -/
def roundsToolMsgs (jp : String → Except String String)
    (clients : List MCPClient) (oracle : ℕ → ChatResponse) (n : ℕ) :
    List ToolMsg :=
  ((List.range n).map
    (fun k => (oracle k).toolCalls.map (processToolCall jp clients))).flatten

/-- A model oracle that requests the same tool call on every turn, forever. -/
def alwaysToolOracle : ℕ → ChatResponse :=
  fun _ => ⟨"", [⟨"call-1", ⟨"get_weather", "\x7b\x7d"⟩⟩]⟩

/-- A concrete `JSON.parse` oracle that always throws. -/
def failingParse : String → Except String String :=
  fun _ => .error "parse failure"

/-- A concrete model behaviour: one round with a tool call, then a final
answer. -/
def oneToolThenDone : ℕ → ChatResponse :=
  fun k =>
    if k = 0 then ⟨"", [⟨"call-7", ⟨"write_file", "not json"⟩⟩]⟩
    else ⟨"final answer", []⟩

/-- A concrete client exposing one tool whose server call succeeds. -/
def weatherClient : MCPClient :=
  ⟨[⟨"get_weather", "weather lookup", "city"⟩], fun _ _ => .ok "sunny"⟩

end AgentLoop

namespace MCPChat

/-- A tool descriptor (`Tool` of the MCP SDK) as held in `ChatOpenAI.tools`. -/
structure Tool where
  name : String
  description : String
  inputSchema : String
deriving DecidableEq

/-- A chat-completion message as pushed onto `ChatOpenAI.messages`.  The
source pushes `{role, content}` objects (plus `tool_call_id` for tool
messages); it never attaches tool calls to an assistant message, which the
embedding records as `tool_calls = []`. -/
structure ChatMessage where
  role : String
  content : String
  tool_call_id : Option String
  tool_calls : List AgentLoop.ToolCall
deriving DecidableEq

def systemMsg (content : String) : ChatMessage := ⟨"system", content, none, []⟩

def userMsg (content : String) : ChatMessage := ⟨"user", content, none, []⟩

def assistantMsg (content : String) : ChatMessage := ⟨"assistant", content, none, []⟩

def toolMsg (toolCallId toolOutput : String) : ChatMessage :=
  ⟨"tool", toolOutput, some toolCallId, []⟩

/-- The mutable state of a `ChatOpenAI` instance: model name, message
history, and the tool list passed to the constructor. -/
structure ChatState where
  model : String
  messages : List ChatMessage
  tools : List Tool
deriving DecidableEq

/-- The `ChatOpenAI` constructor: pushes the system prompt and the context
as messages when they are non-empty strings (JavaScript truthiness). -/
def initChat (model systemPrompt : String) (tools : List Tool)
    (context : String) : ChatState :=
  ⟨model,
   (if systemPrompt ≠ "" then [systemMsg systemPrompt] else []) ++
   (if context ≠ "" then [userMsg context] else []),
   tools⟩

/-- One entry of `getToolsDefinition`'s result:
`{type: "function", function: {name, description, parameters}}`. -/
structure ChatCompletionTool where
  type : String
  name : String
  description : String
  parameters : String
deriving DecidableEq

/-- `ChatOpenAI.getToolsDefinition` (defined in the source but never called
by `chat`). -/
def getToolsDefinition (st : ChatState) : List ChatCompletionTool :=
  st.tools.map (fun t => ⟨"function", t.name, t.description, t.inputSchema⟩)

/-- The request object built by `chat`:
`requestOptions = { model, messages, stream: false }` — the request carries
no `tools` field (`none`), matching the source comment
"Create request options - NO TOOLS, NO STREAMING". -/
structure ChatRequest where
  model : String
  messages : List ChatMessage
  tools : Option (List ChatCompletionTool)
  stream : Bool
deriving DecidableEq

def buildRequest (st : ChatState) : ChatRequest :=
  ⟨st.model, st.messages, none, false⟩

/-- The raw completion returned by the remote endpoint:
`completion.choices[0]?.message?.content` (possibly absent) and whatever
tool calls the model emitted.  `chat` reads only the content. -/
structure Completion where
  content : Option String
  toolCalls : List AgentLoop.ToolCall
deriving DecidableEq

/-- `ChatOpenAI.chat`: if a (truthy) prompt is given, push it as a user
message; send `{model, messages, stream: false}` to the endpoint; take
`content || ""` from the completion; push `{role: "assistant", content}`;
return `{content, toolCalls: []}` ("No tool calls since we're not using
tools").  The endpoint is a parameter (the remote service). -/
def chat (endpoint : ChatRequest → Completion) (st : ChatState)
    (prompt : Option String) : ChatState × String × List AgentLoop.ToolCall :=
  let st1 : ChatState :=
    match prompt with
    | some p =>
        if p ≠ "" then ⟨st.model, st.messages ++ [userMsg p], st.tools⟩ else st
    | none => st
  let completion := endpoint (buildRequest st1)
  let content := completion.content.getD ""
  (⟨st1.model, st1.messages ++ [assistantMsg content], st1.tools⟩,
   content, [])

/-- `ChatOpenAI.appendToolResult`: pushes
`{role: "tool", content: toolOutput, tool_call_id: toolCallId}`.  The id is
taken as given; nothing checks it against earlier messages. -/
def appendToolResult (st : ChatState) (toolCallId toolOutput : String) :
    ChatState :=
  ⟨st.model, st.messages ++ [toolMsg toolCallId toolOutput], st.tools⟩

/-- The public operations of the conversational wrapper. -/
inductive ChatOp where
  | chatOp (prompt : Option String)
  | appendToolResultOp (toolCallId toolOutput : String)

/-- Applying one public operation to a `ChatOpenAI` state. -/
def applyOp (endpoint : ChatRequest → Completion) :
    ChatOp → ChatState → ChatState
  | .chatOp prompt, st => (chat endpoint st prompt).1
  | .appendToolResultOp toolCallId toolOutput, st =>
      appendToolResult st toolCallId toolOutput

/-- The tool-call ids emitted by assistant messages of a history. -/
def emittedIds (msgs : List ChatMessage) : List String :=
  ((msgs.filter (fun m => m.role == "assistant")).map
    (fun m => m.tool_calls.map (fun tc => tc.id))).flatten

/-- The spec's conversation invariant: every tool-role message references a
tool-call id previously emitted by an assistant message. -/
def toolRefsOk (msgs : List ChatMessage) : Prop :=
  ∀ i : Fin msgs.length, (msgs.get i).role = "tool" →
    ∀ id, (msgs.get i).tool_call_id = some id →
      id ∈ emittedIds (msgs.take i)

/-- A concrete endpoint used by counterexamples: it answers "hello" and
emits one tool-call request. -/
def demoEndpoint : ChatRequest → Completion :=
  fun _ => ⟨some "hello", [⟨"call-9", ⟨"get_weather", "\x7b\x7d"⟩⟩]⟩

/-- A concrete `ChatOpenAI` state constructed with one advertised tool. -/
def demoState : ChatState :=
  initChat "Qwen/QwQ-32B-AWQ" "you are helpful"
    [⟨"get_weather", "weather lookup", "city"⟩] "ctx"

end MCPChat

noncomputable section

/-- Sum of squares of a vector's components, the expression
`v.reduce((sum, x) => sum + x * x, 0)` shared by the cosine-similarity norms
and `normalizeVector`'s magnitude. -/
def sumSq (v : List ℝ) : ℝ := (v.map (fun x => x * x)).sum

namespace VS

/-- One record of the in-memory store: `{ embedding, document }`. -/
structure StoreItem where
  embedding : List ℝ
  document : String

/-- `VectorStore.addEmbedding`: pushes a record, so the list order is the
insertion order. -/
def addEmbedding (store : List StoreItem) (embedding : List ℝ)
    (document : String) : List StoreItem :=
  store ++ [⟨embedding, document⟩]

/-- `vecA.reduce((sum, a, idx) => sum + a * vecB[idx], 0)`: the iteration is
over `vecA`'s indices; `vecB[idx]` is modelled with default `0` for an
out-of-range index (the store keeps vectors of equal length). -/
def dotProduct (vecA vecB : List ℝ) : ℝ :=
  ((List.range vecA.length).map (fun idx => vecA.getD idx 0 * vecB.getD idx 0)).sum

/-- `VectorStore.cosineSimilarity`: `dotProduct / (normA * normB)`, computed
unconditionally — there is no minimum-norm guard in the source. -/
def cosineSimilarity (vecA vecB : List ℝ) : ℝ :=
  dotProduct vecA vecB / (Real.sqrt (sumSq vecA) * Real.sqrt (sumSq vecB))

/-- The `(document, score)` pairs built by `search`'s `map`. -/
def scoredOf (store : List StoreItem) (queryEmbedding : List ℝ) :
    List (String × ℝ) :=
  store.map (fun item => (item.document, cosineSimilarity queryEmbedding item.embedding))

/-- The order realized by `scored.sort((a, b) => b.score - a.score)`: the
element being inserted goes before `b` exactly when its score is ≥
`b.score`; with a stable sort this keeps equal-score elements in insertion
order. -/
def scoreGe (a b : String × ℝ) : Prop := b.2 ≤ a.2

instance : DecidableRel scoreGe := fun a b => Real.decidableLE b.2 a.2

instance : IsTotal (String × ℝ) scoreGe := ⟨fun a b => le_total b.2 a.2⟩

instance : IsTrans (String × ℝ) scoreGe :=
  ⟨fun _ _ _ hab hbc => le_trans hbc hab⟩

/-- `VectorStore.search`: score every record, sort descending by score
(JavaScript's `Array.prototype.sort` is stable, modelled by the stable
`List.insertionSort`), take `topK`, and project the documents. -/
def search (store : List StoreItem) (queryEmbedding : List ℝ) (topK : ℕ) :
    List String :=
  (((scoredOf store queryEmbedding).insertionSort scoreGe).take topK).map Prod.fst

/-- The ranking the spec describes, written from the spec's words: order the
enumerated `(insertion index, (document, score))` records by descending
cosine similarity, breaking score ties by insertion order (earliest first),
and return the documents. -/
def specBefore (a b : ℕ × String × ℝ) : Prop :=
  b.2.2 < a.2.2 ∨ (a.2.2 = b.2.2 ∧ a.1 < b.1)

instance : DecidableRel specBefore := fun a b =>
  @instDecidableOr _ _ (Real.decidableLT b.2.2 a.2.2)
    (@instDecidableAnd _ _ (Real.decidableEq a.2.2 b.2.2) (Nat.decLt a.1 b.1))

/-- Spec-side ranking of all stored texts (see `specBefore`). -/
def specRanking (store : List StoreItem) (queryEmbedding : List ℝ) :
    List String :=
  (((scoredOf store queryEmbedding).enum.insertionSort specBefore).map
    (fun t => t.2.1))

/-- A concrete two-document store used by the search witness. -/
def demoStore : List StoreItem :=
  [⟨[1, 0], "doc-a"⟩, ⟨[0, 1], "doc-b"⟩]

end VS

namespace ER

/-- `private readonly targetDimension: number = 384`. -/
def targetDimension : ℕ := 384

/-- `EmbeddingRetriever.normalizeVector`: divide every component by the
magnitude `Math.sqrt(Σ val²)`.  No zero-magnitude guard exists in the
source; for a zero vector the IEEE code produces `NaN` components where
this exact-arithmetic model produces 0 (`x / 0 = 0` convention), so no
theorem below asserts anything about the zero-magnitude case. -/
def normalizeVector (vector : List ℝ) : List ℝ :=
  vector.map (fun val => val / Real.sqrt (sumSq vector))

/-- `Math.floor(i * ratio)` with `ratio = embedding.length / targetDimension`:
the start index of block `i` (and `blockBound len (i+1)` is its end). -/
def blockBound (len i : ℕ) : ℕ :=
  (⌊(i : ℝ) * ((len : ℝ) / (targetDimension : ℝ))⌋).toNat

/-- The inner loop `for (j = start; j < end; j++) sum += embedding[j] || 0`. -/
def blockSum (embedding : List ℝ) (s e : ℕ) : ℝ :=
  ((List.range (e - s)).map (fun k => embedding.getD (s + k) 0)).sum

/-- The block-averaging loop of `resizeEmbedding`:
`result[i] = sum / (end - start)`.  When a block is empty (`end = start`,
which happens for every input shorter than `targetDimension`) the source
computes `0/0` — `NaN` in IEEE arithmetic, 0 under this model's `x / 0 = 0`
convention — so theorems below about the averaged result are restricted to
inputs longer than `targetDimension`, where `blockBound_strict_mono` shows
every block is non-empty and the model matches the code. -/
def blockAverage (embedding : List ℝ) : List ℝ :=
  (List.range targetDimension).map (fun i =>
    blockSum embedding (blockBound embedding.length i)
        (blockBound embedding.length (i + 1)) /
      ((blockBound embedding.length (i + 1) : ℝ) -
        (blockBound embedding.length i : ℝ)))

/-- `EmbeddingRetriever.resizeEmbedding`: an input whose length is already
`targetDimension` is returned unchanged; otherwise block-average down/up to
`targetDimension` entries and L2-normalize. -/
def resizeEmbedding (embedding : List ℝ) : List ℝ :=
  if embedding.length = targetDimension then embedding
  else normalizeVector (blockAverage embedding)

/-- `EmbeddingRetriever.generateRandomEmbedding`:
`Array(targetDimension).fill(0).map(() => Math.random() * 2 - 1)`.
`Math.random` is modelled by an oracle `rand` of draws in `[0, 1)`. -/
def generateRandomEmbedding (rand : ℕ → ℝ) : List ℝ :=
  (List.range targetDimension).map (fun i => rand i * 2 - 1)

/-- The possible outcomes of the `fetch` call and response validation inside
`EmbeddingRetriever.embed`: the fetch (or `response.json()`) throws; the
response is not ok (`!response.ok`); the body fails the validation chain
(`!responseBody || !responseBody[0] || !responseBody[0].embedding ||
!Array.isArray(responseBody[0].embedding[0])`); or a validated embedding
array `responseBody[0].embedding[0]` is obtained. -/
inductive FetchOutcome where
  | throwTransport
  | notOk (status : ℕ)
  | invalidBody
  | validBody (embedding : List ℝ)

/-- `EmbeddingRetriever.embed`: every failure branch — transport throw
(caught by the surrounding `try/catch`), non-2xx status, malformed body —
returns `generateRandomEmbedding()`; a validated embedding is resized.
The function is total: no outcome propagates an exception. -/
def embed (rand : ℕ → ℝ) : FetchOutcome → List ℝ
  | .throwTransport => generateRandomEmbedding rand
  | .notOk _ => generateRandomEmbedding rand
  | .invalidBody => generateRandomEmbedding rand
  | .validBody embedding => resizeEmbedding embedding

/-- `EmbeddingRetriever.embedQuery`: embed only. -/
def embedQuery (rand : ℕ → ℝ) (outcome : FetchOutcome) : List ℝ :=
  embed rand outcome

/-- `EmbeddingRetriever.embedDocument`: embed, then add the pair to the
vector store (the external store's effect is modelled as a list append). -/
def embedDocument (rand : ℕ → ℝ) (outcome : FetchOutcome) (document : String)
    (store : List (List ℝ × String)) : List ℝ × List (List ℝ × String) :=
  let embedding := embed rand outcome
  (embedding, store ++ [(embedding, document)])

/-- A concrete draw oracle (`Math.random` always returning 0.5), used by the
fallback witness. -/
def halfRand : ℕ → ℝ := fun _ => 1 / 2

end ER

end

/-! ## Theorems -/

section AgentLoopTheorems

open AgentLoop

lemma agentCallTool_of_not_found (name args : String) :
    ∀ clients : List MCPClient,
      (∀ c ∈ clients, ∀ t ∈ c.tools, t.name ≠ name) →
      agentCallTool clients name args =
        .error ("Tool " ++ name ++ " not found in any MCP client") := by
  intro clients
  induction clients with
  | nil => intro _; rfl
  | cons c cs ih =>
      intro h
      have hnone : c.tools.find? (fun t => t.name == name) = none := by
        apply List.find?_eq_none.mpr
        intro t ht
        simpa using h c (by simp) t ht
      simp [agentCallTool, hnone]
      exact ih (fun c2 hc2 => h c2 (by simp [hc2]))

lemma agentCallTool_of_first (name args : String) :
    ∀ (pre : List MCPClient) (c : MCPClient) (post : List MCPClient),
      (∀ c2 ∈ pre, ∀ t ∈ c2.tools, t.name ≠ name) →
      (∃ t ∈ c.tools, t.name = name) →
      agentCallTool (pre ++ c :: post) name args = c.call name args := by
  intro pre
  induction pre with
  | nil =>
      intro c post _ hc
      have hsome : (c.tools.find? (fun t => t.name == name)).isSome := by
        rw [List.find?_isSome]
        rcases hc with ⟨t, ht, hname⟩
        exact ⟨t, ht, by simp [hname]⟩
      simp [agentCallTool, hsome]
  | cons c2 pre' ih =>
      intro c post hpre hc
      have hnone : c2.tools.find? (fun t => t.name == name) = none := by
        apply List.find?_eq_none.mpr
        intro t ht
        simpa using hpre c2 (by simp) t ht
      simp [agentCallTool, hnone]
      exact ih c post (fun c3 hc3 => hpre c3 (by simp [hc3])) hc

/-- Claim C7: `MCPAgent.callTool` on a tool name absent from every connected
client's cached tool list fails with an error naming the missing tool and
forwards nothing (the outcome is the same for any client list advertising
the same tools, whatever their call behaviour); on a name present in some
client's list, the call is forwarded to the first such client and its raw
result — success or thrown error — is returned uninterpreted. -/
theorem callTool_not_found_or_forwarded (clients : List MCPClient)
    (name args : String) :
    ((∀ c ∈ clients, ∀ t ∈ c.tools, t.name ≠ name) →
      agentCallTool clients name args =
        .error ("Tool " ++ name ++ " not found in any MCP client") ∧
      ∀ clients2 : List MCPClient,
        clients2.map MCPClient.tools = clients.map MCPClient.tools →
        agentCallTool clients2 name args =
          .error ("Tool " ++ name ++ " not found in any MCP client")) ∧
    (∀ (pre : List MCPClient) (c : MCPClient) (post : List MCPClient),
      clients = pre ++ c :: post →
      (∀ c2 ∈ pre, ∀ t ∈ c2.tools, t.name ≠ name) →
      (∃ t ∈ c.tools, t.name = name) →
      agentCallTool clients name args = c.call name args) := by
  constructor
  · intro habsent
    refine ⟨agentCallTool_of_not_found name args clients habsent, ?_⟩
    intro clients2 htools
    apply agentCallTool_of_not_found
    intro c2 hc2 t ht
    have : c2.tools ∈ clients.map MCPClient.tools := by
      rw [← htools]
      exact List.mem_map_of_mem MCPClient.tools hc2
    rcases List.mem_map.mp this with ⟨c, hc, hceq⟩
    exact habsent c hc t (hceq ▸ ht)
  · intro pre c post hsplit hpre hc
    rw [hsplit]
    exact agentCallTool_of_first name args pre c post hpre hc

/-- Witness for C7 at a concrete client list: the absent name `"nope"`
errors with a message naming it, and the present name `"get_weather"` is
forwarded to the client's server. -/
theorem callTool_not_found_or_forwarded_witness :
    agentCallTool [weatherClient] "nope" "Seattle" =
      .error ("Tool " ++ "nope" ++ " not found in any MCP client") ∧
    agentCallTool [weatherClient] "get_weather" "Seattle" =
      weatherClient.call "get_weather" "Seattle" := by
  constructor
  · exact ((callTool_not_found_or_forwarded [weatherClient] "nope" "Seattle").1
      (by intro c hc t ht; fin_cases hc; fin_cases ht; decide)).1
  · exact (callTool_not_found_or_forwarded [weatherClient] "get_weather"
      "Seattle").2 [] weatherClient [] rfl (by simp)
      ⟨⟨"get_weather", "weather lookup", "city"⟩, by simp [weatherClient]⟩

/-- Claim C2 (the code lacks the claimed bound): against a model oracle that
requests a tool call on every turn, the `executeTask` loop of `MCPAgent`
never finishes — for every fuel bound, every starting round and every
accumulated message list, the fuel-indexed loop exhausts its fuel.  The
source `while` loop has no iteration ceiling. -/
theorem executeTask_has_no_iteration_ceiling
    (jp : String → Except String String) (clients : List MCPClient) :
    ∀ (fuel k : ℕ) (msgs : List ToolMsg),
      executeTaskGo jp clients alwaysToolOracle fuel k msgs = none := by
  intro fuel
  induction fuel with
  | zero => intro k msgs; rfl
  | succ n ih =>
      intro k msgs
      simp only [executeTaskGo, alwaysToolOracle]
      exact ih (k + 1) _

end AgentLoopTheorems

section ERTheorems

/-- Claim C10: `resizeEmbedding` returns inputs whose length is already the
target dimensionality unchanged (hence it is idempotent on them). -/
theorem resizeEmbedding_id_on_target_length (v : List ℝ)
    (h : v.length = ER.targetDimension) : ER.resizeEmbedding v = v := by
  simp [ER.resizeEmbedding, h]

/-- Witness for C10 at the concrete 384-component zero vector. -/
theorem resizeEmbedding_id_on_target_length_witness :
    (List.replicate 384 (0 : ℝ)).length = ER.targetDimension ∧
    ER.resizeEmbedding (List.replicate 384 (0 : ℝ)) =
      List.replicate 384 (0 : ℝ) :=
  ⟨by simp only [List.length_replicate, ER.targetDimension],
   resizeEmbedding_id_on_target_length _
     (by simp only [List.length_replicate, ER.targetDimension])⟩

end ERTheorems

section C1Theorems

open AgentLoop

lemma executeTaskGo_succ (jp : String → Except String String)
    (clients : List MCPClient) (oracle : ℕ → ChatResponse)
    (fuel k : ℕ) (msgs : List ToolMsg) :
    executeTaskGo jp clients oracle (fuel + 1) k msgs =
      if (oracle k).toolCalls.isEmpty then some ((oracle k).content, msgs)
      else executeTaskGo jp clients oracle fuel (k + 1)
        (msgs ++ (oracle k).toolCalls.map (processToolCall jp clients)) := rfl

lemma executeTaskGo_stops (jp : String → Except String String)
    (clients : List MCPClient) (oracle : ℕ → ChatResponse) :
    ∀ (d k : ℕ) (msgs : List ToolMsg),
      (∀ j, j < d → (oracle (k + j)).toolCalls ≠ []) →
      (oracle (k + d)).toolCalls = [] →
      executeTaskGo jp clients oracle (d + 1) k msgs =
        some ((oracle (k + d)).content,
          msgs ++ ((List.range d).map
            (fun j => (oracle (k + j)).toolCalls.map
              (processToolCall jp clients))).flatten) := by
  intro d
  induction d with
  | zero =>
      intro k msgs _ h2
      simp only [Nat.add_zero] at h2
      simp [executeTaskGo, h2]
  | succ n ih =>
      intro k msgs h1 h2
      have h0 : (oracle k).toolCalls ≠ [] := by
        simpa using h1 0 (Nat.succ_pos n)
      have hne : (oracle k).toolCalls.isEmpty = false := by
        simpa [List.isEmpty_iff] using h0
      rw [executeTaskGo_succ, if_neg (by simp [hne])]
      have ih' := ih (k + 1)
        (msgs ++ (oracle k).toolCalls.map (processToolCall jp clients))
        (fun j hj => by
          have := h1 (j + 1) (by omega)
          simpa [Nat.add_assoc, Nat.add_comm 1 j] using this)
        (by
          have := h2
          simpa [Nat.add_assoc, Nat.add_comm 1 n] using this)
      rw [ih']
      have hkn : k + 1 + n = k + (n + 1) := by omega
      rw [hkn, List.range_succ_eq_map]
      simp only [List.map_cons, List.map_map, List.flatten_cons, Nat.add_zero,
        List.append_assoc, Function.comp_def, Nat.succ_eq_add_one]
      simp only [show ∀ j, k + 1 + j = k + (j + 1) from fun j => by omega]

/-- Claim C1: a failing tool call never aborts the `executeTask` loop.
`processToolCall` is total: whenever its `try` block fails — argument
parsing throws, no client handles the tool, or the client's invocation
throws — the produced tool-result message carries the failing call's id and
the serialized error object.  Consequently, for every parse oracle and every
client list (however badly their calls fail), once the model stops
requesting tools at round `n` the loop returns the model's final content,
having appended one tool-result message per requested call of every earlier
round. -/
theorem toolFailure_appends_error_and_loop_returns
    (jp : String → Except String String) (clients : List MCPClient)
    (oracle : ℕ → ChatResponse) (n : ℕ)
    (h1 : ∀ k, k < n → (oracle k).toolCalls ≠ [])
    (h2 : (oracle n).toolCalls = []) :
    (∀ tc e, processToolCallTry jp clients tc = .error e →
      processToolCall jp clients tc = ⟨tc.id, jsonErrorStr e⟩) ∧
    executeTaskGo jp clients oracle (n + 1) 0 [] =
      some ((oracle n).content, roundsToolMsgs jp clients oracle n) := by
  constructor
  · intro tc e he
    simp [processToolCall, he]
  · have := executeTaskGo_stops jp clients oracle n 0 []
      (fun j hj => by simpa using h1 j hj) (by simpa using h2)
    simpa [roundsToolMsgs] using this

/-- Witness for C1: a parse oracle that always throws and an empty client
list (so every tool call fails), against a model that requests one tool call
and then finishes: the loop still returns the final answer. -/
theorem toolFailure_appends_error_and_loop_returns_witness :
    (∀ k, k < 1 → (oneToolThenDone k).toolCalls ≠ []) ∧
    (oneToolThenDone 1).toolCalls = [] ∧
    ((∀ tc e, processToolCallTry failingParse [] tc = .error e →
      processToolCall failingParse [] tc = ⟨tc.id, jsonErrorStr e⟩) ∧
    executeTaskGo failingParse [] oneToolThenDone 2 0 [] =
      some ((oneToolThenDone 1).content,
        roundsToolMsgs failingParse [] oneToolThenDone 1)) := by
  refine ⟨?_, ?_, ?_⟩
  · intro k hk
    have hk0 : k = 0 := by omega
    subst hk0
    decide
  · decide
  · exact toolFailure_appends_error_and_loop_returns failingParse []
      oneToolThenDone 1
      (fun k hk => by
        have hk0 : k = 0 := by omega
        subst hk0
        decide)
      (by decide)

end C1Theorems

section MCPChatTheorems

open MCPChat

/-- Counterexample for C8: a `ChatOpenAI` constructed with a non-empty tool
list and an endpoint whose completion carries a tool-call request.  The
request `chat` builds carries no tool definitions (`tools = none`, although
`getToolsDefinition` of the constructed state is non-empty), and the
returned `toolCalls` is `[]` even though the endpoint emitted one. -/
theorem chat_counterexample :
    (chat demoEndpoint demoState (some "hi")).2.2 = [] ∧
    (demoEndpoint (buildRequest
      ⟨demoState.model, demoState.messages ++ [userMsg "hi"],
        demoState.tools⟩)).toolCalls ≠ [] ∧
    (buildRequest ⟨demoState.model, demoState.messages ++ [userMsg "hi"],
      demoState.tools⟩).tools = none ∧
    getToolsDefinition demoState ≠ [] := by
  refine ⟨rfl, by decide, rfl, by decide⟩

/-- Claim C8 as amended: `chat` with a non-empty prompt appends it as a
user-role message, sends `{model, full message history, stream: false}` with
no `tools` field to the endpoint, appends the assistant's content to the
history, and returns `{content, toolCalls: []}` — the tool list the wrapper
was constructed with is never sent, and the returned `toolCalls` is always
empty. -/
theorem chat_appends_and_returns_no_toolCalls
    (endpoint : ChatRequest → Completion) (st : ChatState) (p : String)
    (hp : p ≠ "") :
    chat endpoint st (some p) =
      (⟨st.model,
        (st.messages ++ [userMsg p]) ++
          [assistantMsg ((endpoint (buildRequest
            ⟨st.model, st.messages ++ [userMsg p], st.tools⟩)).content.getD "")],
        st.tools⟩,
       (endpoint (buildRequest
         ⟨st.model, st.messages ++ [userMsg p], st.tools⟩)).content.getD "",
       []) ∧
    (buildRequest ⟨st.model, st.messages ++ [userMsg p], st.tools⟩).tools =
      none := by
  constructor
  · simp [chat, hp]
  · rfl

/-- Witness for C8's amended theorem at a concrete endpoint, state and
prompt. -/
theorem chat_appends_and_returns_no_toolCalls_witness :
    ("ping" ≠ "") ∧
    (chat demoEndpoint demoState (some "ping") =
      (⟨demoState.model,
        (demoState.messages ++ [userMsg "ping"]) ++
          [assistantMsg ((demoEndpoint (buildRequest
            ⟨demoState.model, demoState.messages ++ [userMsg "ping"],
              demoState.tools⟩)).content.getD "")],
        demoState.tools⟩,
       (demoEndpoint (buildRequest
         ⟨demoState.model, demoState.messages ++ [userMsg "ping"],
           demoState.tools⟩)).content.getD "",
       []) ∧
    (buildRequest ⟨demoState.model,
      demoState.messages ++ [userMsg "ping"], demoState.tools⟩).tools =
      none) :=
  ⟨by decide,
   chat_appends_and_returns_no_toolCalls demoEndpoint demoState "ping"
     (by decide)⟩

/-- Counterexample for C9: the wrapper does not enforce the tool-reference
invariant.  Starting from a freshly constructed conversation (no system
prompt, no context), a single `appendToolResult "call-42"` produces a
history whose tool message references an id no assistant message ever
emitted. -/
theorem appendToolResult_unchecked_reference :
    ¬ toolRefsOk ((applyOp demoEndpoint
      (.appendToolResultOp "call-42" "out") (initChat "m" "" [] "")).messages) := by
  intro h
  have h0 := h ⟨0, by decide⟩ (by decide) "call-42" (by decide)
  simp [emittedIds, initChat, applyOp, appendToolResult, toolMsg] at h0

/-- Claim C9 as amended: the message list is append-only — construction only
seeds messages, and each public operation (`chat`, `appendToolResult`) only
appends to the existing history, never removing or reordering it.  The
reference-to-a-prior-assistant-tool-call-id half of the original claim is
not enforced by the wrapper (see the counterexample). -/
theorem messages_append_only
    (endpoint : ChatRequest → Completion) (op : ChatOp) (st : ChatState) :
    ∃ tail, (applyOp endpoint op st).messages = st.messages ++ tail := by
  cases op with
  | chatOp prompt =>
      cases prompt with
      | none => exact ⟨_, rfl⟩
      | some p =>
          by_cases hp : p = ""
          · subst hp
            simp only [applyOp, chat]
            exact ⟨_, rfl⟩
          · refine ⟨[userMsg p,
              assistantMsg ((endpoint (buildRequest
                ⟨st.model, st.messages ++ [userMsg p],
                  st.tools⟩)).content.getD "")], ?_⟩
            simp [applyOp, chat, hp]
  | appendToolResultOp toolCallId toolOutput => exact ⟨_, rfl⟩

end MCPChatTheorems

section EmbedFallbackTheorems

lemma length_generateRandomEmbedding (rand : ℕ → ℝ) :
    (ER.generateRandomEmbedding rand).length = ER.targetDimension := by
  simp [ER.generateRandomEmbedding]

/-- Claim C4: whenever the embedding endpoint call fails — the transport
throws, the response status is not ok, or the body lacks a valid embedding —
`embedQuery` and `embedDocument` do not throw: both produce the random
fallback vector, which has exactly the target dimensionality and components
in `[-1, 1]` (drawn as `Math.random() * 2 - 1`). -/
theorem embed_failure_returns_fallback
    (rand : ℕ → ℝ) (outcome : ER.FetchOutcome) (document : String)
    (store : List (List ℝ × String))
    (hfail : ∀ emb, outcome ≠ ER.FetchOutcome.validBody emb)
    (hrand : ∀ i, 0 ≤ rand i ∧ rand i < 1) :
    ER.embedQuery rand outcome = ER.generateRandomEmbedding rand ∧
    (ER.embedDocument rand outcome document store).1 =
      ER.generateRandomEmbedding rand ∧
    (ER.embedQuery rand outcome).length = ER.targetDimension ∧
    ∀ x ∈ ER.embedQuery rand outcome, -1 ≤ x ∧ x ≤ 1 := by
  have hq : ER.embedQuery rand outcome = ER.generateRandomEmbedding rand := by
    cases outcome with
    | throwTransport => rfl
    | notOk status => rfl
    | invalidBody => rfl
    | validBody emb => exact absurd rfl (hfail emb)
  refine ⟨hq, ?_, ?_, ?_⟩
  · simpa [ER.embedDocument] using hq
  · rw [hq]; exact length_generateRandomEmbedding rand
  · rw [hq]
    intro x hx
    simp only [ER.generateRandomEmbedding, List.mem_map, List.mem_range] at hx
    obtain ⟨i, _, rfl⟩ := hx
    obtain ⟨h0, h1⟩ := hrand i
    constructor <;> linarith

/-- Witness for C4: the transport throws and every `Math.random` draw is
0.5. -/
theorem embed_failure_returns_fallback_witness :
    (∀ emb, ER.FetchOutcome.throwTransport ≠ ER.FetchOutcome.validBody emb) ∧
    (∀ i, 0 ≤ ER.halfRand i ∧ ER.halfRand i < 1) ∧
    (ER.embedQuery ER.halfRand .throwTransport =
      ER.generateRandomEmbedding ER.halfRand ∧
    (ER.embedDocument ER.halfRand .throwTransport "doc" []).1 =
      ER.generateRandomEmbedding ER.halfRand ∧
    (ER.embedQuery ER.halfRand .throwTransport).length = ER.targetDimension ∧
    ∀ x ∈ ER.embedQuery ER.halfRand .throwTransport, -1 ≤ x ∧ x ≤ 1) :=
  ⟨fun emb h => ER.FetchOutcome.noConfusion h,
   fun i => by norm_num [ER.halfRand],
   embed_failure_returns_fallback ER.halfRand .throwTransport "doc" []
     (fun emb h => ER.FetchOutcome.noConfusion h)
     (fun i => by norm_num [ER.halfRand])⟩

end EmbedFallbackTheorems

section CosineTheorems

lemma sumSq_nonneg (v : List ℝ) : 0 ≤ sumSq v := by
  apply List.sum_nonneg
  intro x hx
  simp only [List.mem_map] at hx
  obtain ⟨a, _, rfl⟩ := hx
  exact mul_self_nonneg a

lemma all_zero_of_sumSq_eq_zero {v : List ℝ} (h : sumSq v = 0) :
    ∀ x ∈ v, x = 0 := by
  induction v with
  | nil => intro x hx; cases hx
  | cons a as ih =>
      have ha : 0 ≤ a * a := mul_self_nonneg a
      have has : 0 ≤ sumSq as := sumSq_nonneg as
      have hsum : a * a + sumSq as = 0 := by
        simpa [sumSq] using h
      have ha0 : a * a = 0 := by linarith
      have has0 : sumSq as = 0 := by linarith
      intro x hx
      rcases List.mem_cons.mp hx with rfl | hx2
      · exact mul_self_eq_zero.mp ha0
      · exact ih has0 x hx2

lemma getD_eq_zero_of_sumSq_eq_zero {v : List ℝ} (h : sumSq v = 0) (i : ℕ) :
    v.getD i 0 = 0 := by
  by_cases hi : i < v.length
  · rw [List.getD_eq_getElem v 0 hi]
    exact all_zero_of_sumSq_eq_zero h _ (List.getElem_mem hi)
  · rw [List.getD_eq_default v 0 (by omega)]

/-- Claim C6 (the code lacks the claimed guard): for a query of zero norm
the cosine-similarity computation of `VectorStore.search` divides by a zero
denominator — `cosineSimilarity` is exactly `dotProduct / (normA * normB)`
with `normA * normB = 0`, and there is no minimum-norm guard to prevent the
division (in IEEE arithmetic the quotient is `NaN`; under the exact model's
`x / 0 = 0` convention the computed score is 0). -/
theorem cosineSimilarity_zero_query_divides_by_zero (q v : List ℝ)
    (h : sumSq q = 0) :
    Real.sqrt (sumSq q) * Real.sqrt (sumSq v) = 0 ∧
    VS.dotProduct q v = 0 ∧
    VS.cosineSimilarity q v = VS.dotProduct q v / 0 ∧
    VS.cosineSimilarity q v = 0 := by
  have hdenom : Real.sqrt (sumSq q) * Real.sqrt (sumSq v) = 0 := by
    rw [h, Real.sqrt_zero, zero_mul]
  have hdot : VS.dotProduct q v = 0 := by
    apply List.sum_eq_zero
    intro x hx
    simp only [List.mem_map, List.mem_range] at hx
    obtain ⟨i, _, rfl⟩ := hx
    rw [getD_eq_zero_of_sumSq_eq_zero h i, zero_mul]
  refine ⟨hdenom, hdot, ?_, ?_⟩
  · rw [VS.cosineSimilarity, hdenom]
  · rw [VS.cosineSimilarity, hdenom, div_zero]

/-- Witness for C6 at the concrete zero query `[0, 0]` against the stored
vector `[1, 0]`. -/
theorem cosineSimilarity_zero_query_divides_by_zero_witness :
    sumSq [(0 : ℝ), 0] = 0 ∧
    (Real.sqrt (sumSq [(0 : ℝ), 0]) * Real.sqrt (sumSq [(1 : ℝ), 0]) = 0 ∧
    VS.dotProduct [(0 : ℝ), 0] [(1 : ℝ), 0] = 0 ∧
    VS.cosineSimilarity [(0 : ℝ), 0] [(1 : ℝ), 0] =
      VS.dotProduct [(0 : ℝ), 0] [(1 : ℝ), 0] / 0 ∧
    VS.cosineSimilarity [(0 : ℝ), 0] [(1 : ℝ), 0] = 0) :=
  ⟨by norm_num [sumSq],
   cosineSimilarity_zero_query_divides_by_zero [(0 : ℝ), 0] [(1 : ℝ), 0]
     (by norm_num [sumSq])⟩

end CosineTheorems

section ResizeTheorems

lemma sumSq_cons (a : ℝ) (l : List ℝ) : sumSq (a :: l) = a * a + sumSq l := by
  simp [sumSq]

lemma sumSq_replicate (n : ℕ) (c : ℝ) :
    sumSq (List.replicate n c) = n * (c * c) := by
  induction n with
  | zero => simp [sumSq]
  | succ m ih =>
      rw [List.replicate_succ, sumSq_cons, ih]
      push_cast
      ring

lemma sumSq_map_div (v : List ℝ) (m : ℝ) :
    sumSq (v.map (fun x => x / m)) = sumSq v / (m * m) := by
  induction v with
  | nil => simp [sumSq]
  | cons a as ih =>
      simp only [List.map_cons, sumSq_cons, ih]
      rw [div_mul_div_comm, div_add_div_same]

lemma sumSq_normalizeVector {v : List ℝ} (h : sumSq v ≠ 0) :
    sumSq (ER.normalizeVector v) = 1 := by
  unfold ER.normalizeVector
  rw [sumSq_map_div, Real.mul_self_sqrt (sumSq_nonneg v), div_self h]

lemma length_normalizeVector (v : List ℝ) :
    (ER.normalizeVector v).length = v.length := by
  simp [ER.normalizeVector]

lemma length_blockAverage (v : List ℝ) :
    (ER.blockAverage v).length = ER.targetDimension := by
  simp [ER.blockAverage]

/-- Counterexample for C5: `resize` does not always produce a unit-norm
vector for a non-empty input.  An input that already has 384 components is
returned structurally unchanged by the identity branch — no arithmetic is
performed, so this holds in IEEE arithmetic as well — and 384 copies of 2
come back with squared norm 1536, not 1. -/
theorem resizeEmbedding_not_always_unit_norm :
    (List.replicate 384 (2 : ℝ) ≠ []) ∧
    sumSq (ER.resizeEmbedding (List.replicate 384 (2 : ℝ))) = 1536 ∧
    (1536 : ℝ) ≠ 1 := by
  refine ⟨?_, ?_, by norm_num⟩
  · intro h
    have hlen := congrArg List.length h
    simp only [List.length_replicate, List.length_nil] at hlen
    omega
  · rw [ER.resizeEmbedding,
      if_pos (by simp only [List.length_replicate, ER.targetDimension])]
    rw [sumSq_replicate]
    norm_num

/-- Whenever the source vector is at least `targetDimension` long, the block
ratio is ≥ 1 and every averaging block `[⌊i·ratio⌋, ⌊(i+1)·ratio⌋)` is
non-empty — on this domain the inner loop of `resizeEmbedding` never
divides by `end - start = 0`, so the exact-arithmetic model and the IEEE
code agree (no `0/0` is computed). -/
lemma blockBound_strict_mono {len : ℕ} (hlen : ER.targetDimension ≤ len)
    (i : ℕ) : ER.blockBound len i < ER.blockBound len (i + 1) := by
  unfold ER.blockBound
  have htd : (0 : ℝ) < (ER.targetDimension : ℝ) := by
    norm_num [ER.targetDimension]
  have hr1 : (1 : ℝ) ≤ (len : ℝ) / (ER.targetDimension : ℝ) := by
    rw [le_div_iff₀ htd, one_mul]
    exact_mod_cast hlen
  have hstep : (i : ℝ) * ((len : ℝ) / (ER.targetDimension : ℝ)) + 1 ≤
      ((i : ℝ) + 1) * ((len : ℝ) / (ER.targetDimension : ℝ)) := by
    nlinarith [hr1]
  have hfl : ⌊(i : ℝ) * ((len : ℝ) / (ER.targetDimension : ℝ))⌋ + 1 ≤
      ⌊((i : ℝ) + 1) * ((len : ℝ) / (ER.targetDimension : ℝ))⌋ := by
    calc ⌊(i : ℝ) * ((len : ℝ) / (ER.targetDimension : ℝ))⌋ + 1
        = ⌊(i : ℝ) * ((len : ℝ) / (ER.targetDimension : ℝ)) + 1⌋ :=
          (Int.floor_add_one _).symm
      _ ≤ ⌊((i : ℝ) + 1) * ((len : ℝ) / (ER.targetDimension : ℝ))⌋ :=
          Int.floor_le_floor hstep
  have h0 : 0 ≤ ⌊(i : ℝ) * ((len : ℝ) / (ER.targetDimension : ℝ))⌋ := by
    apply Int.floor_nonneg.mpr
    have hr0 : (0 : ℝ) ≤ (len : ℝ) / (ER.targetDimension : ℝ) :=
      le_trans zero_le_one hr1
    exact mul_nonneg (Nat.cast_nonneg i) hr0
  have hcast : ((i + 1 : ℕ) : ℝ) = (i : ℝ) + 1 := by push_cast; ring
  rw [hcast]
  omega

/-- Claim C5 as amended: for every input whose length exceeds the target
dimensionality and whose block-averaged vector is non-zero, `resize`
returns a vector of exactly `targetDim` components with unit L2 norm
(squared norm 1).  On this domain every averaging block is non-empty —
proved as the first conjunct — so the source performs no `0/0` division and
the exact-arithmetic model is faithful to the IEEE code.  (An input of
length exactly `targetDim` is returned unchanged with its norm
unconstrained — see the counterexample; an input shorter than `targetDim`
makes the source divide `0/0` in its empty blocks, producing `NaN`
components in IEEE arithmetic, so no unit-norm guarantee is claimed
there.) -/
theorem resizeEmbedding_unit_norm (v : List ℝ)
    (hlen : ER.targetDimension < v.length)
    (havg : sumSq (ER.blockAverage v) ≠ 0) :
    (∀ i, ER.blockBound v.length i < ER.blockBound v.length (i + 1)) ∧
    (ER.resizeEmbedding v).length = ER.targetDimension ∧
    sumSq (ER.resizeEmbedding v) = 1 := by
  refine ⟨fun i => blockBound_strict_mono (le_of_lt hlen) i, ?_, ?_⟩
  · rw [ER.resizeEmbedding, if_neg (ne_of_gt hlen), length_normalizeVector]
    exact length_blockAverage v
  · rw [ER.resizeEmbedding, if_neg (ne_of_gt hlen)]
    exact sumSq_normalizeVector havg

lemma blockBound_double (j : ℕ) :
    ER.blockBound (2 * ER.targetDimension) j = 2 * j := by
  unfold ER.blockBound
  have h2 : ((2 * ER.targetDimension : ℕ) : ℝ) / ((ER.targetDimension : ℕ) : ℝ) = 2 := by
    norm_num [ER.targetDimension]
  rw [h2, show ((j : ℝ) * 2) = ((2 * j : ℕ) : ℝ) by push_cast; ring,
    Int.floor_natCast]
  omega

lemma blockAverage_replicate_double (c : ℝ) :
    ER.blockAverage (List.replicate (2 * ER.targetDimension) c) =
      List.replicate ER.targetDimension c := by
  apply List.eq_replicate_iff.mpr
  refine ⟨length_blockAverage _, ?_⟩
  intro b hb
  simp only [ER.blockAverage, List.mem_map, List.mem_range,
    List.length_replicate] at hb
  obtain ⟨i, hi, rfl⟩ := hb
  rw [blockBound_double i, blockBound_double (i + 1)]
  rw [ER.blockSum, show 2 * (i + 1) - 2 * i = 2 by omega,
    show List.range 2 = [0, 1] from rfl]
  simp only [List.map_cons, List.map_nil, List.sum_cons, List.sum_nil]
  have hmem : ∀ k, k < 2 → 2 * i + k < (List.replicate (2 * ER.targetDimension) c).length := by
    intro k hk
    simp only [List.length_replicate]
    omega
  rw [List.getD_eq_getElem _ 0 (hmem 0 (by omega)),
    List.getD_eq_getElem _ 0 (hmem 1 (by omega)),
    List.getElem_replicate, List.getElem_replicate]
  push_cast
  have hden : ((2 : ℝ) * (↑i + 1) - 2 * ↑i) = 2 := by ring
  rw [hden]
  ring

/-- Witness for C5's amended theorem at the concrete input of 768 ones
(twice the target dimensionality, so the non-identity branch runs). -/
theorem resizeEmbedding_unit_norm_witness :
    (ER.targetDimension <
      (List.replicate (2 * ER.targetDimension) (1 : ℝ)).length) ∧
    (sumSq (ER.blockAverage (List.replicate (2 * ER.targetDimension) (1 : ℝ))) ≠ 0) ∧
    ((∀ i, ER.blockBound
        (List.replicate (2 * ER.targetDimension) (1 : ℝ)).length i <
      ER.blockBound
        (List.replicate (2 * ER.targetDimension) (1 : ℝ)).length (i + 1)) ∧
    (ER.resizeEmbedding (List.replicate (2 * ER.targetDimension) (1 : ℝ))).length =
      ER.targetDimension ∧
    sumSq (ER.resizeEmbedding (List.replicate (2 * ER.targetDimension) (1 : ℝ))) = 1) := by
  have h1 : ER.targetDimension <
      (List.replicate (2 * ER.targetDimension) (1 : ℝ)).length := by
    simp only [List.length_replicate, ER.targetDimension]
    omega
  have h2 : sumSq (ER.blockAverage
      (List.replicate (2 * ER.targetDimension) (1 : ℝ))) ≠ 0 := by
    rw [blockAverage_replicate_double, sumSq_replicate]
    norm_num [ER.targetDimension]
  exact ⟨h1, h2, resizeEmbedding_unit_norm _ h1 h2⟩

end ResizeTheorems

section SearchTheorems

lemma fst_ge_of_mem_enumFrom {α : Type} :
    ∀ (n : ℕ) (l : List α) (p : ℕ × α), p ∈ l.enumFrom n → n ≤ p.1 := by
  intro n l
  induction l generalizing n with
  | nil => intro p hp; cases hp
  | cons x xs ih =>
      intro p hp
      rcases List.mem_cons.mp hp with rfl | hp2
      · exact le_refl n
      · exact le_of_lt (lt_of_lt_of_le (Nat.lt_succ_self n) (ih (n + 1) p hp2))

lemma pairwise_fst_lt_enumFrom {α : Type} :
    ∀ (n : ℕ) (l : List α), (l.enumFrom n).Pairwise (fun a b => a.1 < b.1) := by
  intro n l
  induction l generalizing n with
  | nil => exact List.Pairwise.nil
  | cons x xs ih =>
      refine List.Pairwise.cons ?_ (ih (n + 1))
      intro p hp
      exact lt_of_lt_of_le (Nat.lt_succ_self n) (fst_ge_of_mem_enumFrom (n + 1) xs p hp)

lemma map_snd_enumFrom {α : Type} :
    ∀ (n : ℕ) (l : List α), (l.enumFrom n).map Prod.snd = l := by
  intro n l
  induction l generalizing n with
  | nil => rfl
  | cons x xs ih => simp [List.enumFrom, ih (n + 1)]

lemma map_snd_orderedInsert (x : ℕ × String × ℝ) :
    ∀ ys : List (ℕ × String × ℝ), (∀ y ∈ ys, x.1 < y.1) →
      (List.orderedInsert VS.specBefore x ys).map Prod.snd =
        List.orderedInsert VS.scoreGe x.2 (ys.map Prod.snd) := by
  intro ys
  induction ys with
  | nil => intro _; rfl
  | cons y ys ih =>
      intro hx
      have hxy : x.1 < y.1 := hx y (List.mem_cons_self y ys)
      by_cases hc : VS.scoreGe x.2 y.2
      · have hb : VS.specBefore x y := by
          rcases lt_or_eq_of_le (hc : y.2.2 ≤ x.2.2) with hlt | heq
          · exact Or.inl hlt
          · exact Or.inr ⟨heq.symm, hxy⟩
        simp only [List.orderedInsert, List.map_cons]
        rw [if_pos hb, if_pos hc]
        simp
      · have hb : ¬ VS.specBefore x y := by
          intro hcon
          rcases hcon with hlt | ⟨heq, _⟩
          · exact hc (le_of_lt hlt)
          · exact hc (le_of_eq heq.symm)
        simp only [List.orderedInsert, List.map_cons]
        rw [if_neg hb, if_neg hc]
        simp only [List.map_cons]
        rw [ih (fun y2 hy2 => hx y2 (List.mem_cons_of_mem y hy2))]

lemma map_snd_insertionSort :
    ∀ l : List (ℕ × String × ℝ), l.Pairwise (fun a b => a.1 < b.1) →
      (l.insertionSort VS.specBefore).map Prod.snd =
        (l.map Prod.snd).insertionSort VS.scoreGe := by
  intro l
  induction l with
  | nil => intro _; rfl
  | cons x xs ih =>
      intro hpw
      rcases List.pairwise_cons.mp hpw with ⟨hx, hxs⟩
      have hx2 : ∀ y ∈ xs.insertionSort VS.specBefore, x.1 < y.1 :=
        fun y hy => hx y ((List.perm_insertionSort VS.specBefore xs).subset hy)
      simp only [List.insertionSort, List.map_cons]
      rw [map_snd_orderedInsert x _ hx2, ih hxs]

/-- Claim C3: with `topK` at least the store size, `VectorStore.search`
returns exactly the stored texts — a permutation of all documents — ranked
as the spec describes: descending cosine similarity to the query, score ties
broken by insertion order (earliest first); and the scored list the search
sorts is indeed ordered by non-increasing score. -/
theorem search_returns_all_texts_ranked (store : List VS.StoreItem)
    (q : List ℝ) (topK : ℕ) (h : store.length ≤ topK) :
    VS.search store q topK = VS.specRanking store q ∧
    (VS.search store q topK).Perm (store.map VS.StoreItem.document) ∧
    ((VS.scoredOf store q).insertionSort VS.scoreGe).Pairwise VS.scoreGe := by
  have hlen : ((VS.scoredOf store q).insertionSort VS.scoreGe).length =
      store.length := by
    rw [(List.perm_insertionSort VS.scoreGe _).length_eq]
    simp [VS.scoredOf]
  have htake : (((VS.scoredOf store q).insertionSort VS.scoreGe).take topK) =
      (VS.scoredOf store q).insertionSort VS.scoreGe :=
    List.take_of_length_le (by rw [hlen]; exact h)
  have hsearch : VS.search store q topK =
      ((VS.scoredOf store q).insertionSort VS.scoreGe).map Prod.fst := by
    rw [VS.search, htake]
  have hspec : VS.specRanking store q =
      ((VS.scoredOf store q).insertionSort VS.scoreGe).map Prod.fst := by
    rw [VS.specRanking]
    have henum : (VS.scoredOf store q).enum.Pairwise (fun a b => a.1 < b.1) :=
      pairwise_fst_lt_enumFrom 0 (VS.scoredOf store q)
    calc ((VS.scoredOf store q).enum.insertionSort VS.specBefore).map
            (fun t => t.2.1)
        = (((VS.scoredOf store q).enum.insertionSort VS.specBefore).map
            Prod.snd).map Prod.fst := by
          rw [List.map_map]; rfl
      _ = (((VS.scoredOf store q).enum.map Prod.snd).insertionSort
            VS.scoreGe).map Prod.fst := by
          rw [map_snd_insertionSort _ henum]
      _ = ((VS.scoredOf store q).insertionSort VS.scoreGe).map Prod.fst := by
          rw [show (VS.scoredOf store q).enum =
              (VS.scoredOf store q).enumFrom 0 from rfl,
            map_snd_enumFrom 0 (VS.scoredOf store q)]
  refine ⟨by rw [hsearch, hspec], ?_, ?_⟩
  · rw [hsearch]
    have hperm := (List.perm_insertionSort VS.scoreGe
      (VS.scoredOf store q)).map Prod.fst
    apply hperm.trans
    rw [VS.scoredOf, List.map_map]
    exact List.Perm.refl _
  · exact List.sorted_insertionSort VS.scoreGe (VS.scoredOf store q)

/-- Witness for C3 at a concrete two-document store and query. -/
theorem search_returns_all_texts_ranked_witness :
    VS.demoStore.length ≤ 2 ∧
    (VS.search VS.demoStore [1, 0] 2 = VS.specRanking VS.demoStore [1, 0] ∧
    (VS.search VS.demoStore [1, 0] 2).Perm
      (VS.demoStore.map VS.StoreItem.document) ∧
    ((VS.scoredOf VS.demoStore [1, 0]).insertionSort VS.scoreGe).Pairwise
      VS.scoreGe) :=
  ⟨by simp [VS.demoStore],
   search_returns_all_texts_ranked VS.demoStore [1, 0] 2
     (by simp [VS.demoStore])⟩

end SearchTheorems
